import Mathlib

/-!
Verification development for the Dialogos repository.

The definitions below are a shallow embedding of the Python sources:
  - src/dialogos-api/src/services/data_processing.py  (analyze_branches, process_chatgpt_messages)
  - src/dialogos-api/src/services/background_processor.py  (BackgroundProcessor.process_queue)
  - src/dialogos-api/src/services/embedding.py  (get_embeddings)
  - src/dialogos-api/src/routes/api.py  (check_task_status, get_branched_messages)
  - src/tangent-api/src/services/clustering.py  (perform_clustering)
  - src/tangent-api/src/services/topic_generation.py  (generate_topic_for_cluster)

Modelling conventions:
  - Python dicts of messages become the structure Msg; optional dict keys become Option fields.
  - Timestamps are modelled as integer epoch seconds (pd.to_datetime parsing is abstracted:
    a parsed timestamp is the Int value, a missing/unparseable one is Option.none).
  - Python dicts used as maps become association lists, preserving insertion order
    exactly as Python dicts do.
  - External providers (OpenAI embeddings, chat completions, DBSCAN, TSNE) are oracle
    function parameters; an exception thrown by a provider is an Except.error value.
  - Unbounded Python recursion (the collect closure of analyze_branches) takes an explicit
    fuel argument bounding recursion depth; theorems require the fuel to dominate the
    depth actually reached, which on acyclic inputs is at most the message count.
-/

/-- A conversation message, modelling the Python message dicts.
Fields mirror the dict keys used by the sources; keys that may be absent in the
duck-typed dicts are Option fields.  The source uses two distinct keys for the
parent pointer: "parent_message_id" (data_processing.analyze_branches and the
ChatGPT-export flattener) and "parent_message" (routes/api.py message store). -/
structure Msg where
  chat_name : String
  chat_id : String
  branch_id : String
  message_id : String
  parent_message_id : Option String
  parent_message : Option String
  sender : String
  text : String
  ts : Int
  deriving DecidableEq, Repr, Inhabited

/-- Association list keyed by strings holding message lists, modelling
defaultdict(list) keyed by message/parent ids (or chat names). -/
abbrev PC := List (String × List Msg)

/-- Models dict.get(key, []) on a defaultdict(list) (read-only access). -/
def pcGet (pc : PC) (k : String) : List Msg :=
  match pc.find? (fun e => e.1 == k) with
  | some e => e.2
  | none => []

/-- Models defaultdict(list)[key].append(m): appends to the existing entry,
or creates the entry at the end (Python dict insertion order). -/
def pcAdd (pc : PC) (k : String) (m : Msg) : PC :=
  if pc.any (fun e => e.1 == k) then
    pc.map (fun e => if e.1 == k then (e.1, e.2 ++ [m]) else e)
  else
    pc ++ [(k, [m])]

/-- Models an in-place mutation of the list object stored at key k
(children.sort() in analyze_branches): the value at the key is replaced. -/
def pcSet (pc : PC) (k : String) (v : List Msg) : PC :=
  pc.map (fun e => if e.1 == k then (e.1, v) else e)

/-- Stable insertion of a message into a timestamp-sorted list: the message
goes before the first strictly-later-or-equal element, matching the stability
of Python's list.sort. -/
def insertTs (m : Msg) : List Msg → List Msg
  | [] => [m]
  | x :: xs => if m.ts ≤ x.ts then m :: x :: xs else x :: insertTs m xs

/-- Stable sort by timestamp ascending, modelling children.sort(key=timestamp). -/
def sortByTs : List Msg → List Msg
  | [] => []
  | x :: xs => insertTs x (sortByTs xs)

/-- The recursive collect closure of analyze_branches (data_processing.py lines
204-208): append the message, then recurse into parent_children[message_id].
The fuel argument bounds the recursion depth (Python recursion is unbounded and
diverges on cyclic parent references; with fuel larger than the reachable depth
the embedding agrees with the source). -/
def collectF (pc : PC) : Nat → Msg → List Msg
  | 0, _ => []
  | fuel + 1, m => m :: (pcGet pc m.message_id).flatMap (collectF pc fuel)

/-- Reachability at a given depth through the parent-to-children index:
ReachesD pc root target d holds when target is reached from root by following
d child edges of the index (d = 0 gives the root itself). -/
inductive ReachesD (pc : PC) : Msg → Msg → Nat → Prop
  | refl (m : Msg) : ReachesD pc m m 0
  | step {m c t : Msg} {d : Nat} :
      c ∈ pcGet pc m.message_id → ReachesD pc c t d → ReachesD pc m t (d + 1)

/-- C6: Edit-branch descendant collection is transitively closed: every message
reachable from the flagged root through the parent-to-children index (at any
depth, the root itself included at depth 0) appears in the list produced by the
collect closure, provided the fuel exceeds the reachability depth. -/
theorem collect_collects_all_descendants (pc : PC) (root target : Msg) (d fuel : Nat)
    (h : ReachesD pc root target d) (hfuel : d < fuel) :
    target ∈ collectF pc fuel root := by
  induction h generalizing fuel with
  | refl m =>
    match fuel, hfuel with
    | f + 1, _ => exact List.mem_cons_self ..
  | step hc _ ih =>
    match fuel, hfuel with
    | f + 1, hf =>
      refine List.mem_cons_of_mem _ ?_
      refine List.mem_flatMap.mpr ⟨_, hc, ?_⟩
      exact ih f (Nat.lt_of_succ_lt_succ hf)

def c6msgA : Msg :=
  { chat_name := "A", chat_id := "", branch_id := "0", message_id := "a"
    parent_message_id := none, parent_message := none
    sender := "human", text := "ta", ts := 100 }

def c6msgB : Msg :=
  { chat_name := "A", chat_id := "", branch_id := "0", message_id := "b"
    parent_message_id := some "a", parent_message := none
    sender := "assistant", text := "tb", ts := 200 }

def c6msgC : Msg :=
  { chat_name := "A", chat_id := "", branch_id := "0", message_id := "c"
    parent_message_id := some "b", parent_message := none
    sender := "human", text := "tc", ts := 300 }

/-- Parent-to-children index of the three-message chain a -> b -> c. -/
def c6pc : PC := [("a", [c6msgB]), ("b", [c6msgC])]

/-- Witness for C6: in the chain a -> b -> c, the grandchild c is reachable from
a at depth 2 and indeed appears in the collected branch messages (fuel 3),
even though its own parent is not the flagged message directly. -/
theorem collect_collects_all_descendants_witness :
    ReachesD c6pc c6msgA c6msgC 2 ∧ c6msgC ∈ collectF c6pc 3 c6msgA := by
  have hab : c6msgB ∈ pcGet c6pc c6msgA.message_id := by decide
  have hbc : c6msgC ∈ pcGet c6pc c6msgB.message_id := by decide
  have h : ReachesD c6pc c6msgA c6msgC 2 :=
    ReachesD.step hab (ReachesD.step hbc (ReachesD.refl c6msgC))
  exact ⟨h, collect_collects_all_descendants c6pc c6msgA c6msgC 2 3 h (by decide)⟩

/-!
Topic labeler (src/tangent-api/src/services/topic_generation.py).

The OpenAI chat-completion call is an oracle mapping the zero-based attempt
index to either the returned message content (Except.ok) or a raised exception
(Except.error).  The run record also captures the number of provider calls made
and the sequence of time.sleep durations, so that retry count and backoff are
part of the observable behaviour.
-/

/-- Models Python str.strip(): remove leading and trailing whitespace. -/
def pyStrip (s : String) : String :=
  String.mk (((s.data.dropWhile Char.isWhitespace).reverse.dropWhile Char.isWhitespace).reverse)

/-- Observable outcome of one generate_topic_for_cluster run: the returned
label, how many provider calls were made, and the sleep durations (seconds)
performed between attempts. -/
structure TopicRun where
  topic : String
  calls : Nat
  sleeps : List Nat
  deriving DecidableEq, Repr

/-- The retry loop of generate_topic_for_cluster (topic_generation.py lines
24-39): attempt is the current zero-based loop index, remaining the number of
loop iterations left (3 - attempt at entry).  On success the stripped content
is returned, with the "Miscellaneous" default for an empty strip; on an
exception the code sleeps 2 ^ attempt and retries while attempt < 2, and
returns the "Error" sentinel on the final attempt. -/
def genTopicGo (provider : Nat → Except String String) : Nat → Nat → TopicRun
  | _, 0 => { topic := "Error", calls := 0, sleeps := [] }
  | attempt, rem + 1 =>
    match provider attempt with
    | Except.ok content =>
      let t := pyStrip content
      { topic := if t = "" then "Miscellaneous" else t, calls := 1, sleeps := [] }
    | Except.error _ =>
      if attempt < 2 then
        let r := genTopicGo provider (attempt + 1) rem
        { topic := r.topic, calls := r.calls + 1, sleeps := 2 ^ attempt :: r.sleeps }
      else
        { topic := "Error", calls := 1, sleeps := [] }

/-- Models generate_topic_for_cluster: for attempt in range(3) starting at 0. -/
def generateTopicForCluster (provider : Nat → Except String String) : TopicRun :=
  genTopicGo provider 0 3

/-- C5: the topic labeler makes at most 3 provider attempts, sleeping 2 ^ attempt
between retries (exponential backoff, base 2); when the provider fails on the
first two attempts and succeeds on the third with a label that is nonempty
after stripping, that stripped label is returned; when all three attempts fail, the
fixed sentinel "Error" is returned.  The function is total (it returns a
TopicRun for every provider), so no exception propagates to the caller. -/
theorem generate_topic_retry_behaviour (provider : Nat → Except String String) :
    (generateTopicForCluster provider).calls ≤ 3
    ∧ (∀ e0 e1 s, provider 0 = Except.error e0 → provider 1 = Except.error e1 →
        provider 2 = Except.ok s → pyStrip s ≠ "" →
        (generateTopicForCluster provider).topic = pyStrip s
        ∧ (generateTopicForCluster provider).sleeps = [1, 2])
    ∧ (∀ e0 e1 e2, provider 0 = Except.error e0 → provider 1 = Except.error e1 →
        provider 2 = Except.error e2 →
        (generateTopicForCluster provider).topic = "Error") := by
  refine ⟨?_, ?_, ?_⟩
  · unfold generateTopicForCluster genTopicGo
    cases provider 0 with
    | ok c => simp
    | error e =>
      simp only []
      unfold genTopicGo
      cases provider 1 with
      | ok c => simp
      | error e1 =>
        simp only []
        unfold genTopicGo
        cases provider 2 with
        | ok c => simp
        | error e2 => simp
  · intro e0 e1 s h0 h1 h2 hne
    unfold generateTopicForCluster genTopicGo
    rw [h0]
    simp only [Nat.zero_lt_two, if_pos]
    unfold genTopicGo
    rw [h1]
    simp only [Nat.one_lt_two, if_pos]
    unfold genTopicGo
    rw [h2]
    simp [hne]
  · intro e0 e1 e2 h0 h1 h2
    unfold generateTopicForCluster genTopicGo
    rw [h0]
    simp only [Nat.zero_lt_two, if_pos]
    unfold genTopicGo
    rw [h1]
    simp only [Nat.one_lt_two, if_pos]
    unfold genTopicGo
    rw [h2]
    simp

/-- A provider that raises on the first two attempts and returns a padded label
on the third. -/
def c5provider : Nat → Except String String :=
  fun n => if n < 2 then Except.error "RateLimitError" else Except.ok " Data Visualization "

/-- Witness for C5: with two failures then a success, the stripped successful
label is returned after backoff sleeps of 1 and 2 seconds. -/
theorem generate_topic_retry_behaviour_witness :
    (generateTopicForCluster c5provider).calls ≤ 3
    ∧ (generateTopicForCluster c5provider).topic = pyStrip " Data Visualization "
    ∧ (generateTopicForCluster c5provider).sleeps = [1, 2] := by
  have h := generate_topic_retry_behaviour c5provider
  exact ⟨h.1, (h.2.1 "RateLimitError" "RateLimitError" " Data Visualization "
    rfl rfl rfl (by decide)).1,
    (h.2.1 "RateLimitError" "RateLimitError" " Data Visualization "
    rfl rfl rfl (by decide)).2⟩

/-!
Clustering engine (src/tangent-api/src/services/clustering.py).

DBSCAN is an oracle: given the embeddings and min_samples it either returns
the label array (Except.ok) or raises (Except.error).  perform_clustering
wraps the call in try/except and returns the all-noise labelling [-1] * len
on any exception.
-/

/-- Models perform_clustering (clustering.py lines 6-21) over a DBSCAN oracle:
on success the labels are returned, on an exception the except branch returns
the list [-1] * len(embeddings). -/
def performClustering {V : Type} (dbscan : List V → Nat → Except String (List Int))
    (embeddings : List V) (minClusterSize : Nat := 2) : List Int :=
  match dbscan embeddings minClusterSize with
  | Except.ok labels => labels
  | Except.error _ => List.replicate embeddings.length (-1)

/-- C10: perform_clustering is total (it returns a labelling for every input
instead of raising): assuming the DBSCAN oracle returns one label per sample
when it succeeds, the result always has the same length as the input, and
whenever the underlying clustering computation raises, the result is the
all-noise labelling [-1] * len(embeddings). -/
theorem perform_clustering_total {V : Type}
    (dbscan : List V → Nat → Except String (List Int))
    (hlen : ∀ l n r, dbscan l n = Except.ok r → r.length = l.length)
    (embeddings : List V) (minClusterSize : Nat) :
    (performClustering dbscan embeddings minClusterSize).length = embeddings.length
    ∧ (∀ e, dbscan embeddings minClusterSize = Except.error e →
        performClustering dbscan embeddings minClusterSize
          = List.replicate embeddings.length (-1)) := by
  constructor
  · unfold performClustering
    cases hres : dbscan embeddings minClusterSize with
    | ok labels => exact hlen embeddings minClusterSize labels hres
    | error e => simp
  · intro e he
    unfold performClustering
    rw [he]

/-- Witness for C10: a DBSCAN oracle that always raises yields the all-noise
labelling of the right length on a concrete two-point input. -/
theorem perform_clustering_total_witness :
    (performClustering (V := Int) (fun _ _ => Except.error "ValueError") [5, 7] 2).length = 2
    ∧ performClustering (V := Int) (fun _ _ => Except.error "ValueError") [5, 7] 2
        = [-1, -1] := by
  have h := perform_clustering_total (V := Int) (fun _ _ => Except.error "ValueError")
    (by intro l n r hr; cases hr) [5, 7] 2
  exact ⟨h.1, by rw [h.2 "ValueError" rfl]; rfl⟩

/-!
Branch analyzer (src/dialogos-api/src/services/data_processing.py, analyze_branches,
lines 169-212).

The collect phase groups messages by chat_name into a defaultdict whose entries
hold the chat's messages, the parent-to-children index and the (initially empty)
edit-branch list; the source copies every message dict and adds the parsed
timestamp object, which in this embedding is already the ts field, so the stored
record equals the input record.  The detect phase iterates over the index,
sorts sibling lists of size at least 2 in place (pcSet), computes np.diff of
the timestamps, and emits one edit branch per consecutive gap above 60 seconds,
collecting the later sibling's descendants through the partially sorted index.
-/

/-- An edit branch as built by analyze_branches: parent_message holds the
parent id string, original and edit the earlier and later sibling, time_gap
their timestamp difference, branch_messages the collected descendants. -/
structure Branch where
  parent_message : String
  original : Msg
  edit : Msg
  time_gap : Int
  branch_messages : List Msg
  deriving DecidableEq, Repr

/-- Per-chat analyzer state and output: the value type of the chats defaultdict
and of the returned stats dict. -/
structure ChatData where
  messages : List Msg
  parent_children : PC
  edit_branches : List Branch
  deriving DecidableEq, Repr, Inhabited

/-- One iteration of the collect loop of analyze_branches: append the message
to its chat's entry (creating the defaultdict entry on first access) and, when
parent_message_id is truthy (present and nonempty), to the chat's
parent-to-children index. -/
def chatUpd (m : Msg) (d : ChatData) : ChatData :=
  let d1 := { d with messages := d.messages ++ [m] }
  match m.parent_message_id with
  | some pid =>
    if pid ≠ "" then { d1 with parent_children := pcAdd d1.parent_children pid m } else d1
  | none => d1

/-- Applies chatUpd to the message's chat entry, creating the defaultdict
entry on first access (at the end, preserving dict insertion order). -/
def chatsAdd (chats : List (String × ChatData)) (m : Msg) : List (String × ChatData) :=
  if chats.any (fun e => e.1 == m.chat_name) then
    chats.map (fun e => if e.1 == m.chat_name then (e.1, chatUpd m e.2) else e)
  else
    chats ++ [(m.chat_name, chatUpd m ⟨[], [], []⟩)]

/-- The collect loop of analyze_branches over the whole message list. -/
def buildChats (msgs : List Msg) : List (String × ChatData) :=
  msgs.foldl chatsAdd []

/-- The inner gap loop for one parent whose children have been sorted: one
branch per consecutive pair with gap strictly above 60 seconds, with the
descendants of the later sibling collected through the current index state. -/
def mkBranches (fuel : Nat) (parent : String) (pcCur : PC) (sorted : List Msg) :
    List Branch :=
  (sorted.zip sorted.tail).filterMap (fun ab =>
    if 60 < ab.2.ts - ab.1.ts then
      some { parent_message := parent, original := ab.1, edit := ab.2,
             time_gap := ab.2.ts - ab.1.ts,
             branch_messages := collectF pcCur fuel ab.2 }
    else none)

/-- One iteration of the detect loop: parents with at most one child are
skipped; otherwise the sibling list is sorted in place (pcSet) and the gap
loop runs against the updated index. -/
def detectStep (fuel : Nat) (st : PC × List Branch) (pe : String × List Msg) :
    PC × List Branch :=
  if pe.2.length ≤ 1 then st
  else
    let sorted := sortByTs pe.2
    let pcNew := pcSet st.1 pe.1 sorted
    (pcNew, st.2 ++ mkBranches fuel pe.1 pcNew sorted)

/-- The detect loop for one chat: fold over the index entries (Python yields
each key with its value as of the yield, i.e. the original sibling list),
threading the in-place sorts and accumulating edit branches. -/
def detectChat (fuel : Nat) (d : ChatData) : ChatData :=
  let r := d.parent_children.foldl (detectStep fuel) (d.parent_children, d.edit_branches)
  { d with parent_children := r.1, edit_branches := r.2 }

/-- Models analyze_branches: build the chats dict, then run detection on every
chat.  The collect recursion fuel is the message count, which dominates the
descendant depth on acyclic inputs (on cyclic parent references the Python
source does not terminate). -/
def analyzeBranches (msgs : List Msg) : List (String × ChatData) :=
  (buildChats msgs).map (fun e => (e.1, detectChat msgs.length e.2))

/-- The projection of an edit branch onto the data determined directly by the
gap rule: the parent id, the two siblings and the gap. -/
def brProj (br : Branch) : String × Msg × Msg × Int :=
  (br.parent_message, br.original, br.edit, br.time_gap)

/-- The gap rule read off a sorted sibling list: one record per consecutive
pair with gap strictly above 60 seconds. -/
def pairTriples (p : String) (sc : List Msg) : List (String × Msg × Msg × Int) :=
  (sc.zip sc.tail).filterMap (fun ab =>
    if 60 < ab.2.ts - ab.1.ts then some (p, ab.1, ab.2, ab.2.ts - ab.1.ts) else none)

theorem insertTs_length (m : Msg) (l : List Msg) :
    (insertTs m l).length = l.length + 1 := by
  induction l with
  | nil => rfl
  | cons x xs ih =>
    unfold insertTs
    split
    · simp
    · simp [ih]

theorem sortByTs_length (l : List Msg) : (sortByTs l).length = l.length := by
  induction l with
  | nil => rfl
  | cons x xs ih => simp [sortByTs, insertTs_length, ih]

theorem mem_insertTs {y m : Msg} {l : List Msg} :
    y ∈ insertTs m l ↔ y = m ∨ y ∈ l := by
  induction l with
  | nil => simp [insertTs]
  | cons x xs ih =>
    unfold insertTs
    split
    · simp
    · simp [ih]
      tauto

theorem insertTs_pairwise {m : Msg} {l : List Msg}
    (h : l.Pairwise (fun a b => a.ts ≤ b.ts)) :
    (insertTs m l).Pairwise (fun a b => a.ts ≤ b.ts) := by
  induction l with
  | nil => simp [insertTs]
  | cons x xs ih =>
    rw [List.pairwise_cons] at h
    unfold insertTs
    split
    · rename_i hle
      refine List.Pairwise.cons ?_ (List.Pairwise.cons h.1 h.2)
      intro y hy
      rcases List.mem_cons.mp hy with rfl | hy
      · exact hle
      · exact le_trans hle (h.1 y hy)
    · rename_i hgt
      refine List.Pairwise.cons ?_ (ih h.2)
      intro y hy
      rcases mem_insertTs.mp hy with rfl | hy
      · exact le_of_not_le hgt
      · exact h.1 y hy

theorem sortByTs_pairwise (l : List Msg) :
    (sortByTs l).Pairwise (fun a b => a.ts ≤ b.ts) := by
  induction l with
  | nil => exact List.Pairwise.nil
  | cons x xs ih => exact insertTs_pairwise ih

theorem zip_tail_nil {l : List Msg} (h : l.length ≤ 1) : l.zip l.tail = [] := by
  match l with
  | [] => rfl
  | [a] => rfl
  | a :: b :: t => simp at h

theorem pairTriples_short {p : String} {l : List Msg} (h : l.length ≤ 1) :
    pairTriples p l = [] := by
  unfold pairTriples
  rw [zip_tail_nil h]
  rfl

theorem pairwise_of_short {l : List Msg} (h : l.length ≤ 1)
    {R : Msg → Msg → Prop} : l.Pairwise R := by
  match l with
  | [] => exact List.Pairwise.nil
  | [a] => exact List.pairwise_singleton R a
  | a :: b :: t => simp at h

theorem mkBranches_proj (fuel : Nat) (p : String) (pc : PC) (sc : List Msg) :
    (mkBranches fuel p pc sc).map brProj = pairTriples p sc := by
  unfold mkBranches pairTriples
  rw [List.map_filterMap]
  apply List.filterMap_congr
  intro ab _
  split <;> rfl

/-- The index-mutation part of one detect iteration, in isolation. -/
def updStep (pc : PC) (pe : String × List Msg) : PC :=
  if pe.2.length ≤ 1 then pc else pcSet pc pe.1 (sortByTs pe.2)

/-- What the detect loop does to one index entry: sibling lists of size at
least 2 end up sorted, others are untouched. -/
def procEntry (pe : String × List Msg) : String × List Msg :=
  if pe.2.length ≤ 1 then pe else (pe.1, sortByTs pe.2)

/-- Keys of an association list are pairwise distinct (always true for lists
built from a Python dict). -/
def keysDistinct (pc : PC) : Prop := pc.Pairwise (fun a b => a.1 ≠ b.1)

theorem detect_foldl_fst (fuel : Nat) (entries : List (String × List Msg)) :
    ∀ (pc : PC) (brs : List Branch),
      (entries.foldl (detectStep fuel) (pc, brs)).1 = entries.foldl updStep pc := by
  induction entries with
  | nil => intro pc brs; rfl
  | cons pe rest ih =>
    intro pc brs
    simp only [List.foldl_cons]
    unfold detectStep updStep
    split
    · exact ih pc brs
    · exact ih _ _

theorem detectStep_short {fuel : Nat} {st : PC × List Branch} {pe : String × List Msg}
    (h : pe.2.length ≤ 1) : detectStep fuel st pe = st := by
  unfold detectStep
  rw [if_pos h]

theorem detectStep_long {fuel : Nat} {st : PC × List Branch} {pe : String × List Msg}
    (h : ¬ pe.2.length ≤ 1) :
    detectStep fuel st pe
      = (pcSet st.1 pe.1 (sortByTs pe.2),
         st.2 ++ mkBranches fuel pe.1 (pcSet st.1 pe.1 (sortByTs pe.2)) (sortByTs pe.2)) := by
  unfold detectStep
  rw [if_neg h]

theorem detect_foldl_snd_proj (fuel : Nat) (entries : List (String × List Msg)) :
    ∀ (pc : PC) (brs : List Branch),
      ((entries.foldl (detectStep fuel) (pc, brs)).2).map brProj
        = brs.map brProj
            ++ entries.flatMap (fun pe => pairTriples pe.1 (sortByTs pe.2)) := by
  induction entries with
  | nil => intro pc brs; simp
  | cons pe rest ih =>
    intro pc brs
    simp only [List.foldl_cons, List.flatMap_cons]
    by_cases hshort : pe.2.length ≤ 1
    · rw [detectStep_short hshort, ih pc brs]
      have h1 : (sortByTs pe.2).length ≤ 1 := by rw [sortByTs_length]; exact hshort
      rw [pairTriples_short h1]
      simp
    · rw [detectStep_long hshort, ih]
      simp only [List.map_append, mkBranches_proj]
      simp

/-- The cumulative effect of all in-place sorts of the detect loop on one
association-list entry: the first entry of l with the same key and at least
two children determines the sorted value. -/
def fF : List (String × List Msg) → (String × List Msg) → (String × List Msg)
  | [], e => e
  | pe :: rest, e =>
    if pe.1 = e.1 ∧ 2 ≤ pe.2.length then (e.1, sortByTs pe.2) else fF rest e

theorem fF_of_no_key {l : List (String × List Msg)} {x : String × List Msg}
    (h : ∀ b ∈ l, b.1 ≠ x.1) : fF l x = x := by
  induction l with
  | nil => rfl
  | cons pe rest ih =>
    show (if pe.1 = x.1 ∧ 2 ≤ pe.2.length then (x.1, sortByTs pe.2) else fF rest x) = x
    rw [if_neg (fun hc => (h pe (List.mem_cons_self ..)) hc.1)]
    exact ih (fun b hb => h b (List.mem_cons_of_mem _ hb))

theorem updStep_foldl (l : List (String × List Msg)) :
    ∀ acc : PC, keysDistinct l → l.foldl updStep acc = acc.map (fF l) := by
  induction l with
  | nil =>
    intro acc _
    simp only [List.foldl_nil]
    have h : ∀ e ∈ acc, fF [] e = id e := fun e _ => rfl
    rw [List.map_congr_left h, List.map_id]
  | cons pe rest ih =>
    intro acc hkd
    have hkd' : keysDistinct rest := (List.pairwise_cons.mp hkd).2
    have hne : ∀ b ∈ rest, pe.1 ≠ b.1 := (List.pairwise_cons.mp hkd).1
    simp only [List.foldl_cons]
    rw [ih _ hkd']
    by_cases hshort : pe.2.length ≤ 1
    · rw [show updStep acc pe = acc from by unfold updStep; rw [if_pos hshort]]
      apply List.map_congr_left
      intro e _
      show fF rest e
        = if pe.1 = e.1 ∧ 2 ≤ pe.2.length then (e.1, sortByTs pe.2) else fF rest e
      rw [if_neg (fun hc => by omega)]
    · rw [show updStep acc pe = pcSet acc pe.1 (sortByTs pe.2) from by
        unfold updStep; rw [if_neg hshort]]
      unfold pcSet
      rw [List.map_map]
      apply List.map_congr_left
      intro e _
      simp only [Function.comp_apply]
      by_cases he : e.1 = pe.1
      · rw [if_pos (by simpa using he)]
        have hl : fF rest ((e.1, sortByTs pe.2) : String × List Msg)
            = (e.1, sortByTs pe.2) :=
          fF_of_no_key (fun b hb => fun hc => (hne b hb) (he ▸ hc).symm)
        rw [hl]
        show ((e.1, sortByTs pe.2) : String × List Msg)
          = if pe.1 = e.1 ∧ 2 ≤ pe.2.length then (e.1, sortByTs pe.2) else fF rest e
        rw [if_pos ⟨he.symm, by omega⟩]
      · rw [if_neg (fun hc => he (by simpa using hc))]
        show fF rest e
          = if pe.1 = e.1 ∧ 2 ≤ pe.2.length then (e.1, sortByTs pe.2) else fF rest e
        rw [if_neg (fun hc => he hc.1.symm)]

theorem fF_self {l : List (String × List Msg)} (hkd : keysDistinct l) :
    ∀ e ∈ l, fF l e = procEntry e := by
  induction l with
  | nil => intro e he; cases he
  | cons a rest ih =>
    intro e he
    have hne : ∀ b ∈ rest, a.1 ≠ b.1 := (List.pairwise_cons.mp hkd).1
    have hkd' : keysDistinct rest := (List.pairwise_cons.mp hkd).2
    rcases List.mem_cons.mp he with rfl | he
    · show (if e.1 = e.1 ∧ 2 ≤ e.2.length then (e.1, sortByTs e.2) else fF rest e)
        = procEntry e
      by_cases hlen : 2 ≤ e.2.length
      · rw [if_pos ⟨rfl, hlen⟩]
        unfold procEntry
        rw [if_neg (by omega)]
      · rw [if_neg (fun hc => hlen hc.2)]
        rw [fF_of_no_key (fun b hb => (hne b hb).symm)]
        unfold procEntry
        rw [if_pos (by omega)]
    · show (if a.1 = e.1 ∧ 2 ≤ a.2.length then (e.1, sortByTs a.2) else fF rest e)
        = procEntry e
      rw [if_neg (fun hc => (hne e he) hc.1)]
      exact ih hkd' e he

theorem pcAdd_keysDistinct {pc : PC} {k : String} {m : Msg}
    (h : keysDistinct pc) : keysDistinct (pcAdd pc k m) := by
  unfold pcAdd
  split
  · unfold keysDistinct at h ⊢
    rw [List.pairwise_map]
    refine h.imp ?_
    intro a b hab
    have ha : (if a.1 == k then (a.1, a.2 ++ [m]) else a).1 = a.1 := by
      split <;> rfl
    have hb : (if b.1 == k then (b.1, b.2 ++ [m]) else b).1 = b.1 := by
      split <;> rfl
    rw [ha, hb]
    exact hab
  · rename_i hnone
    unfold keysDistinct
    rw [List.pairwise_append]
    refine ⟨h, List.pairwise_singleton _ _, ?_⟩
    intro a ha b hb
    have hb' : b = (k, [m]) := by simpa using hb
    subst hb'
    intro hak
    apply hnone
    rw [List.any_eq_true]
    exact ⟨a, ha, by simpa using hak⟩

theorem chatUpd_keysDistinct {m : Msg} {d : ChatData}
    (h : keysDistinct d.parent_children) :
    keysDistinct (chatUpd m d).parent_children := by
  unfold chatUpd
  cases m.parent_message_id with
  | none => exact h
  | some pid =>
    simp only []
    split
    · exact pcAdd_keysDistinct h
    · exact h

theorem chatUpd_edit_branches (m : Msg) (d : ChatData) :
    (chatUpd m d).edit_branches = d.edit_branches := by
  unfold chatUpd
  cases m.parent_message_id with
  | none => rfl
  | some pid =>
    simp only []
    split <;> rfl

/-- Invariant of the collect phase: every chat entry has a distinct-keyed
parent-to-children index and an empty edit-branch list. -/
def buildInv (chats : List (String × ChatData)) : Prop :=
  ∀ e ∈ chats, keysDistinct e.2.parent_children ∧ e.2.edit_branches = []

theorem chatsAdd_inv {chats : List (String × ChatData)} {m : Msg}
    (h : buildInv chats) : buildInv (chatsAdd chats m) := by
  unfold chatsAdd
  split
  · intro e he
    rcases List.mem_map.mp he with ⟨a, ha, rfl⟩
    by_cases hk : a.1 == m.chat_name
    · rw [if_pos hk]
      exact ⟨chatUpd_keysDistinct (h a ha).1,
        (chatUpd_edit_branches m a.2).trans (h a ha).2⟩
    · rw [if_neg hk]
      exact h a ha
  · intro e he
    rcases List.mem_append.mp he with he | he
    · exact h e he
    · have he' : e = (m.chat_name, chatUpd m ⟨[], [], []⟩) := by simpa using he
      subst he'
      refine ⟨chatUpd_keysDistinct ?_, (chatUpd_edit_branches m _).trans rfl⟩
      exact List.Pairwise.nil

theorem buildChats_inv (msgs : List Msg) : buildInv (buildChats msgs) := by
  unfold buildChats
  have hgen : ∀ (l : List Msg) (acc : List (String × ChatData)),
      buildInv acc → buildInv (l.foldl chatsAdd acc) := by
    intro l
    induction l with
    | nil => intro acc h; exact h
    | cons x xs ih =>
      intro acc h
      exact ih _ (chatsAdd_inv h)
  exact hgen msgs [] (fun e he => by cases he)

theorem detect_foldl_head (fuel : Nat) (hf : 0 < fuel)
    (entries : List (String × List Msg)) :
    ∀ (pc : PC) (brs : List Branch),
      (∀ br ∈ brs, br.branch_messages.head? = some br.edit) →
      ∀ br ∈ (entries.foldl (detectStep fuel) (pc, brs)).2,
        br.branch_messages.head? = some br.edit := by
  induction entries with
  | nil => intro pc brs h; exact h
  | cons pe rest ih =>
    intro pc brs h
    simp only [List.foldl_cons]
    by_cases hshort : pe.2.length ≤ 1
    · rw [detectStep_short hshort]
      exact ih pc brs h
    · rw [detectStep_long hshort]
      apply ih
      intro br hbr
      rcases List.mem_append.mp hbr with hbr | hbr
      · exact h br hbr
      · rcases List.mem_filterMap.mp hbr with ⟨ab, _, heq⟩
        by_cases hgap : 60 < ab.2.ts - ab.1.ts
        · rw [if_pos hgap] at heq
          cases heq
          obtain ⟨f, rfl⟩ : ∃ f, fuel = f + 1 := ⟨fuel - 1, by omega⟩
          rfl
        · rw [if_neg hgap] at heq
          cases heq

theorem pairTriples_procEntry (pe : String × List Msg) :
    pairTriples (procEntry pe).1 (procEntry pe).2 = pairTriples pe.1 (sortByTs pe.2) := by
  unfold procEntry
  by_cases hshort : pe.2.length ≤ 1
  · rw [if_pos hshort, pairTriples_short hshort,
      pairTriples_short (by rw [sortByTs_length]; exact hshort)]
  · rw [if_neg hshort]

/-- C1: the gap rule of analyze_branches.  In every chat of the output:
(1) the edit-branch list projects, parent by parent in index order, onto
exactly the consecutive pairs of the (sorted) sibling lists whose time gap
strictly exceeds 60 seconds, recorded as (parent id, earlier sibling, later
sibling, gap) — so a consecutive pair with gap at most 60 seconds produces no
edit branch and a pair with gap above 60 produces exactly one, with the later
sibling as the edit message; (2) every sibling list in the output index is
sorted by timestamp ascending; (3) every edit branch is rooted at its later
sibling: branch_messages starts with the edit message. -/
theorem analyze_branches_gap_rule (msgs : List Msg) (c : String) (data : ChatData)
    (hmem : (c, data) ∈ analyzeBranches msgs) :
    data.edit_branches.map brProj
      = data.parent_children.flatMap (fun pe => pairTriples pe.1 pe.2)
    ∧ (∀ pe ∈ data.parent_children, List.Pairwise (fun a b : Msg => a.ts ≤ b.ts) pe.2)
    ∧ (∀ br ∈ data.edit_branches, br.branch_messages.head? = some br.edit) := by
  unfold analyzeBranches at hmem
  rcases List.mem_map.mp hmem with ⟨e, he, heq⟩
  have hc : c = e.1 := (congrArg Prod.fst heq).symm
  have hdata : data = detectChat msgs.length e.2 := (congrArg Prod.snd heq).symm
  have hinv := buildChats_inv msgs e he
  have hmsgs : 0 < msgs.length := by
    cases msgs with
    | nil => rw [show buildChats [] = [] from rfl] at he; cases he
    | cons x xs => simp
  have hpc : data.parent_children = e.2.parent_children.map procEntry := by
    rw [hdata]
    unfold detectChat
    simp only []
    rw [detect_foldl_fst, updStep_foldl _ _ hinv.1]
    exact List.map_congr_left (fF_self hinv.1)
  refine ⟨?_, ?_, ?_⟩
  · have hbr : data.edit_branches.map brProj
        = e.2.parent_children.flatMap (fun pe => pairTriples pe.1 (sortByTs pe.2)) := by
      rw [hdata]
      unfold detectChat
      simp only []
      rw [detect_foldl_snd_proj, hinv.2]
      simp
    rw [hbr, hpc]
    rw [List.flatMap_map]
    have hfun : (fun a : String × List Msg => pairTriples (procEntry a).1 (procEntry a).2)
        = (fun pe : String × List Msg => pairTriples pe.1 (sortByTs pe.2)) :=
      funext (fun pe => pairTriples_procEntry pe)
    rw [hfun]
  · intro pe hpe
    rw [hpc] at hpe
    rcases List.mem_map.mp hpe with ⟨a, _, rfl⟩
    unfold procEntry
    by_cases hshort : a.2.length ≤ 1
    · rw [if_pos hshort]
      exact pairwise_of_short hshort
    · rw [if_neg hshort]
      exact sortByTs_pairwise a.2
  · intro br hbr
    rw [hdata] at hbr
    unfold detectChat at hbr
    simp only [] at hbr
    exact detect_foldl_head msgs.length hmsgs _ _ _
      (by rw [hinv.2]; intro b hb; cases hb) br hbr

def c1msgP : Msg :=
  { chat_name := "A", chat_id := "", branch_id := "0", message_id := "p"
    parent_message_id := none, parent_message := none
    sender := "human", text := "root", ts := 0 }

def c1msgX : Msg :=
  { chat_name := "A", chat_id := "", branch_id := "0", message_id := "x"
    parent_message_id := some "p", parent_message := none
    sender := "assistant", text := "first completion", ts := 10 }

def c1msgY : Msg :=
  { chat_name := "A", chat_id := "", branch_id := "0", message_id := "y"
    parent_message_id := some "p", parent_message := none
    sender := "assistant", text := "second completion", ts := 20 }

def c1msgZ : Msg :=
  { chat_name := "A", chat_id := "", branch_id := "0", message_id := "z"
    parent_message_id := some "p", parent_message := none
    sender := "human", text := "edited resubmission", ts := 100 }

/-- Three children of one parent: gaps 10 (no branch) and 80 (one branch). -/
def c1msgs : List Msg := [c1msgP, c1msgX, c1msgY, c1msgZ]

/-- The analyzer output entry for the single chat of c1msgs. -/
def c1data : ChatData := ((analyzeBranches c1msgs).map Prod.snd).headD default

/-- Witness for C1: on a parent with children at timestamps 10, 20 and 100,
the analyzer emits edit branches exactly for the 80-second consecutive pair,
rooted at the later sibling. -/
theorem analyze_branches_gap_rule_witness :
    ("A", c1data) ∈ analyzeBranches c1msgs
    ∧ (c1data.edit_branches.map brProj
          = c1data.parent_children.flatMap (fun pe => pairTriples pe.1 pe.2)
        ∧ (∀ pe ∈ c1data.parent_children,
            List.Pairwise (fun a b : Msg => a.ts ≤ b.ts) pe.2)
        ∧ (∀ br ∈ c1data.edit_branches,
            br.branch_messages.head? = some br.edit)) :=
  ⟨by decide, analyze_branches_gap_rule c1msgs "A" c1data (by decide)⟩

/-!
Purity of analyze_branches (C7).  The source reads each input dict m and
stores the copy made by the dict-unpacking expression, never writing to the
input list or its elements; the in-place sorts of the detect phase touch only
the freshly built index lists.  The run embedding threads the input list
through the collect loop exactly as the code consumes it, returning the list
as left behind by the run together with the analysis result.
-/

/-- One full analyze_branches run over the mutable state it can see: the
input message list as the run leaves it (the loop only reads each element;
the stored record is the copy made by dict unpacking) paired with the stats
output. -/
def analyzeBranchesRun (msgs : List Msg) : List Msg × List (String × ChatData) :=
  let built := msgs.foldl
    (fun (st : List Msg × List (String × ChatData)) m => (st.1 ++ [m], chatsAdd st.2 m))
    ([], [])
  (built.1, built.2.map (fun e => (e.1, detectChat msgs.length e.2)))

theorem buildRun_foldl (l : List Msg) :
    ∀ (acc1 : List Msg) (acc2 : List (String × ChatData)),
      l.foldl
        (fun (st : List Msg × List (String × ChatData)) m =>
          (st.1 ++ [m], chatsAdd st.2 m)) (acc1, acc2)
        = (acc1 ++ l, l.foldl chatsAdd acc2) := by
  induction l with
  | nil => intro acc1 acc2; simp
  | cons x xs ih =>
    intro acc1 acc2
    simp only [List.foldl_cons]
    rw [ih]
    simp

/-- C7: the branch analyzer is pure and idempotent: a run leaves the input
message list unchanged, its output is exactly the pure analyzeBranches value,
and re-running the analyzer on the list left behind by a run yields a
structurally identical output. -/
theorem analyze_branches_pure_idempotent (msgs : List Msg) :
    (analyzeBranchesRun msgs).1 = msgs
    ∧ (analyzeBranchesRun msgs).2 = analyzeBranches msgs
    ∧ analyzeBranches (analyzeBranchesRun msgs).1 = analyzeBranches msgs := by
  have h1 : (analyzeBranchesRun msgs).1 = msgs := by
    unfold analyzeBranchesRun
    rw [buildRun_foldl]
    simp
  refine ⟨h1, ?_, by rw [h1]⟩
  unfold analyzeBranchesRun analyzeBranches buildChats
  rw [buildRun_foldl]

/-!
Branched chat structure (routes/api.py, get_branched_messages; dialogos-api
lines 493-586, tangent-api lines 360-433 with identical logic).  This route,
not the branch analyzer, produces the per-chat main_branch plus the mapping
branch_id to parent_message and branch_messages.  It groups the stored
messages by chat_name and then by their stored branch_id field; the required
key check of the source always passes on the typed records of the embedding.
-/

/-- One entry of the branches mapping of get_branched_messages. -/
structure BranchEntry where
  parent_message : Option Msg
  branch_messages : List Msg
  deriving DecidableEq, Repr

/-- Per-chat output of get_branched_messages. -/
structure BranchedChat where
  main_branch : List Msg
  branches : List (String × BranchEntry)
  deriving DecidableEq, Repr

/-- The parent lookup performed when a branch entry is created: the first
chat message whose message_id equals the branched message's parent_message
key and sits on branch "0", else the first with the right id on any branch;
a missing parent_message key matches nothing (comparison with None). -/
def findParentMsg (chat_messages : List Msg) (m : Msg) : Option Msg :=
  match m.parent_message with
  | none => none
  | some p =>
    match chat_messages.find? (fun x => x.message_id == p && x.branch_id == "0") with
    | some x => some x
    | none => chat_messages.find? (fun x => x.message_id == p)

/-- One iteration of the branched-message loop: append to the branch entry,
creating it (with the parent lookup) on first sight of the branch_id. -/
def branchesAdd (chat_messages : List Msg) (brs : List (String × BranchEntry))
    (m : Msg) : List (String × BranchEntry) :=
  if brs.any (fun e => e.1 == m.branch_id) then
    brs.map (fun e =>
      if e.1 == m.branch_id then
        (e.1, { e.2 with branch_messages := e.2.branch_messages ++ [m] })
      else e)
  else
    brs ++ [(m.branch_id, ⟨findParentMsg chat_messages m, [m]⟩)]

/-- Models get_branched_messages: group by chat_name, split each chat into the
main branch (branch_id "0") and the non-"0" messages grouped by branch_id,
and keep chats having a main branch or at least one branch. -/
def getBranchedMessages (msgs : List Msg) : List (String × BranchedChat) :=
  let chats := msgs.foldl (fun acc m => pcAdd acc m.chat_name m) ([] : PC)
  chats.filterMap (fun ce =>
    let main_branch := ce.2.filter (fun m => m.branch_id == "0")
    let branched := ce.2.filter (fun m => !(m.branch_id == "0"))
    let branches := branched.foldl (branchesAdd ce.2) []
    if main_branch ≠ [] ∨ branches ≠ [] then
      some (ce.1, ⟨main_branch, branches⟩)
    else none)

def c4msg : Msg :=
  { chat_name := "A", chat_id := "", branch_id := "1", message_id := "x"
    parent_message_id := none, parent_message := none
    sender := "human", text := "hello", ts := 0 }

/-- Counterexample for C4 as stated: on the one-message list whose message
carries branch_id "1", the branch analyzer's per-chat output carries no branch
structure at all (its record is messages, parent_children and an empty
edit_branches list; nothing keyed by branch_id and no main_branch component),
whereas the claimed per-chat structure, as actually produced by the
get_branched_messages route, has an empty main branch and exactly one branch
keyed "1". -/
theorem branch_mapping_not_from_analyzer :
    (analyzeBranches [c4msg]).map (fun e => (e.1, e.2.edit_branches.length)) = [("A", 0)]
    ∧ (analyzeBranches [c4msg]).map (fun e => e.2.messages) = [[c4msg]]
    ∧ (getBranchedMessages [c4msg]).map
        (fun e => (e.1, e.2.main_branch, e.2.branches.length)) = [("A", [], 1)]
    ∧ (getBranchedMessages [c4msg]).map (fun e => e.2.branches.map Prod.fst) = [["1"]] := by
  refine ⟨by decide, by decide, by decide, by decide⟩

theorem pcAdd_group_step {processed : List Msg} {acc : PC} {m : Msg}
    (hval : ∀ e ∈ acc, e.2 = processed.filter (fun x => x.chat_name == e.1))
    (hcov : ∀ x ∈ processed, acc.any (fun e => e.1 == x.chat_name) = true) :
    (∀ e ∈ pcAdd acc m.chat_name m,
      e.2 = (processed ++ [m]).filter (fun x => x.chat_name == e.1))
    ∧ (∀ x ∈ processed ++ [m],
      (pcAdd acc m.chat_name m).any (fun e => e.1 == x.chat_name) = true) := by
  unfold pcAdd
  split
  · rename_i hany
    constructor
    · intro e he
      rcases List.mem_map.mp he with ⟨a, ha, rfl⟩
      by_cases hk : a.1 == m.chat_name
      · rw [if_pos hk]
        simp only [List.filter_append]
        rw [← hval a ha]
        have : m.chat_name == a.1 := by
          have := beq_iff_eq.mp hk
          simp [this]
        simp [this]
      · rw [if_neg hk]
        simp only [List.filter_append]
        rw [← hval a ha]
        have : ¬ (m.chat_name == a.1) = true := by
          intro hcon
          exact hk (by simp [beq_iff_eq.mp hcon])
        simp only [List.filter_cons, List.filter_nil]
        rw [if_neg this]
        simp
    · intro x hx
      rw [List.any_eq_true]
      rcases List.mem_append.mp hx with hx | hx
      · have := hcov x hx
        rcases List.any_eq_true.mp this with ⟨e, he, hk⟩
        refine ⟨if e.1 == m.chat_name then (e.1, e.2 ++ [m]) else e, List.mem_map_of_mem _ he, ?_⟩
        split <;> simpa using hk
      · have hx' : x = m := by simpa using hx
        subst hx'
        rcases List.any_eq_true.mp hany with ⟨e, he, hk⟩
        refine ⟨if e.1 == x.chat_name then (e.1, e.2 ++ [x]) else e, List.mem_map_of_mem _ he, ?_⟩
        split <;> simpa using hk
  · rename_i hnone
    constructor
    · intro e he
      rcases List.mem_append.mp he with he | he
      · have hne : ¬ (m.chat_name == e.1) = true := by
          intro hcon
          exact hnone (List.any_eq_true.mpr ⟨e, he, by simpa using (beq_iff_eq.mp hcon).symm⟩)
        simp only [List.filter_append, List.filter_cons, List.filter_nil]
        rw [if_neg hne]
        rw [← hval e he]
        simp
      · have he' : e = (m.chat_name, [m]) := by simpa using he
        subst he'
        simp only [List.filter_append, List.filter_cons, List.filter_nil]
        have hnil : processed.filter (fun x => x.chat_name == m.chat_name) = [] := by
          rw [List.filter_eq_nil_iff]
          intro x hx hcon
          have := hcov x hx
          rcases List.any_eq_true.mp this with ⟨e, he, hk⟩
          exact hnone (List.any_eq_true.mpr
            ⟨e, he, by
              have h1 := beq_iff_eq.mp hk
              have h2 := beq_iff_eq.mp hcon
              simp [h1, h2]⟩)
        simp [hnil]
    · intro x hx
      rw [List.any_eq_true]
      rcases List.mem_append.mp hx with hx | hx
      · rcases List.any_eq_true.mp (hcov x hx) with ⟨e, he, hk⟩
        exact ⟨e, List.mem_append_left _ he, hk⟩
      · have hx' : x = m := by simpa using hx
        subst hx'
        exact ⟨(x.chat_name, [x]), List.mem_append_right _ (by simp), by simp⟩

theorem groupFold_chats (l : List Msg) :
    ∀ (processed : List Msg) (acc : PC),
    (∀ e ∈ acc, e.2 = processed.filter (fun x => x.chat_name == e.1)) →
    (∀ x ∈ processed, acc.any (fun e => e.1 == x.chat_name) = true) →
    (∀ e ∈ l.foldl (fun a m => pcAdd a m.chat_name m) acc,
      e.2 = (processed ++ l).filter (fun x => x.chat_name == e.1)) := by
  induction l with
  | nil =>
    intro processed acc hval _ e he
    simpa using hval e he
  | cons m xs ih =>
    intro processed acc hval hcov e he
    simp only [List.foldl_cons] at he
    have hstep := pcAdd_group_step (m := m) hval hcov
    have := ih (processed ++ [m]) _ hstep.1 hstep.2 e he
    simpa using this

theorem branchesAdd_group_step (cms : List Msg) {processed : List Msg}
    {brs : List (String × BranchEntry)} {m : Msg}
    (hval : ∀ e ∈ brs, e.2.branch_messages
      = processed.filter (fun x => x.branch_id == e.1))
    (hcov : ∀ x ∈ processed, brs.any (fun e => e.1 == x.branch_id) = true) :
    (∀ e ∈ branchesAdd cms brs m, e.2.branch_messages
      = (processed ++ [m]).filter (fun x => x.branch_id == e.1))
    ∧ (∀ x ∈ processed ++ [m],
      (branchesAdd cms brs m).any (fun e => e.1 == x.branch_id) = true) := by
  unfold branchesAdd
  split
  · rename_i hany
    constructor
    · intro e he
      rcases List.mem_map.mp he with ⟨a, ha, rfl⟩
      by_cases hk : a.1 == m.branch_id
      · rw [if_pos hk]
        simp only [List.filter_append]
        rw [← hval a ha]
        have : m.branch_id == a.1 := by
          have := beq_iff_eq.mp hk
          simp [this]
        simp [this]
      · rw [if_neg hk]
        simp only [List.filter_append]
        rw [← hval a ha]
        have : ¬ (m.branch_id == a.1) = true := by
          intro hcon
          exact hk (by simp [beq_iff_eq.mp hcon])
        simp only [List.filter_cons, List.filter_nil]
        rw [if_neg this]
        simp
    · intro x hx
      rw [List.any_eq_true]
      rcases List.mem_append.mp hx with hx | hx
      · rcases List.any_eq_true.mp (hcov x hx) with ⟨e, he, hk⟩
        refine ⟨if e.1 == m.branch_id then
            (e.1, { e.2 with branch_messages := e.2.branch_messages ++ [m] })
          else e, List.mem_map_of_mem _ he, ?_⟩
        split <;> simpa using hk
      · have hx' : x = m := by simpa using hx
        subst hx'
        rcases List.any_eq_true.mp hany with ⟨e, he, hk⟩
        refine ⟨if e.1 == x.branch_id then
            (e.1, { e.2 with branch_messages := e.2.branch_messages ++ [x] })
          else e, List.mem_map_of_mem _ he, ?_⟩
        split <;> simpa using hk
  · rename_i hnone
    constructor
    · intro e he
      rcases List.mem_append.mp he with he | he
      · have hne : ¬ (m.branch_id == e.1) = true := by
          intro hcon
          exact hnone (List.any_eq_true.mpr
            ⟨e, he, by simpa using (beq_iff_eq.mp hcon).symm⟩)
        simp only [List.filter_append, List.filter_cons, List.filter_nil]
        rw [if_neg hne]
        rw [← hval e he]
        simp
      · have he' : e = (m.branch_id, ⟨findParentMsg cms m, [m]⟩) := by simpa using he
        subst he'
        simp only [List.filter_append, List.filter_cons, List.filter_nil]
        have hnil : processed.filter (fun x => x.branch_id == m.branch_id) = [] := by
          rw [List.filter_eq_nil_iff]
          intro x hx hcon
          rcases List.any_eq_true.mp (hcov x hx) with ⟨e, he, hk⟩
          exact hnone (List.any_eq_true.mpr
            ⟨e, he, by
              have h1 := beq_iff_eq.mp hk
              have h2 := beq_iff_eq.mp hcon
              simp [h1, h2]⟩)
        simp [hnil]
    · intro x hx
      rw [List.any_eq_true]
      rcases List.mem_append.mp hx with hx | hx
      · rcases List.any_eq_true.mp (hcov x hx) with ⟨e, he, hk⟩
        exact ⟨e, List.mem_append_left _ he, hk⟩
      · have hx' : x = m := by simpa using hx
        subst hx'
        exact ⟨(x.branch_id, ⟨findParentMsg cms x, [x]⟩),
          List.mem_append_right _ (by simp), by simp⟩

theorem branchesAdd_keys (cms : List Msg) {brs : List (String × BranchEntry)} {m : Msg}
    (h0 : ∀ e ∈ brs, e.1 ≠ "0") (hm : m.branch_id ≠ "0") :
    ∀ e ∈ branchesAdd cms brs m, e.1 ≠ "0" := by
  unfold branchesAdd
  split
  · intro e he
    rcases List.mem_map.mp he with ⟨a, ha, rfl⟩
    have := h0 a ha
    split <;> simpa using this
  · intro e he
    rcases List.mem_append.mp he with he | he
    · exact h0 e he
    · have he' : e = (m.branch_id, ⟨findParentMsg cms m, [m]⟩) := by simpa using he
      subst he'
      exact hm

theorem groupFold_branches (cms : List Msg) (l : List Msg) :
    ∀ (processed : List Msg) (brs : List (String × BranchEntry)),
    (∀ e ∈ brs, e.2.branch_messages = processed.filter (fun x => x.branch_id == e.1)) →
    (∀ x ∈ processed, brs.any (fun e => e.1 == x.branch_id) = true) →
    (∀ e ∈ brs, e.1 ≠ "0") →
    (∀ x ∈ l, x.branch_id ≠ "0") →
    (∀ e ∈ l.foldl (branchesAdd cms) brs,
      e.2.branch_messages = (processed ++ l).filter (fun x => x.branch_id == e.1)
      ∧ e.1 ≠ "0") := by
  induction l with
  | nil =>
    intro processed brs hval _ h0 _ e he
    exact ⟨by simpa using hval e he, h0 e he⟩
  | cons m xs ih =>
    intro processed brs hval hcov h0 hl e he
    simp only [List.foldl_cons] at he
    have hstep := branchesAdd_group_step cms (m := m) hval hcov
    have hkeys := branchesAdd_keys cms (m := m) h0 (hl m (List.mem_cons_self ..))
    have := ih (processed ++ [m]) _ hstep.1 hstep.2 hkeys
      (fun x hx => hl x (List.mem_cons_of_mem _ hx)) e he
    simpa using this

theorem filter_branch_ne0 {b : String} (hb : b ≠ "0") (l : List Msg) :
    (l.filter (fun m => !(m.branch_id == "0"))).filter (fun x => x.branch_id == b)
      = l.filter (fun x => x.branch_id == b) := by
  rw [List.filter_filter]
  apply List.filter_congr
  intro a _
  by_cases h : a.branch_id == b
  · have ha : a.branch_id = b := beq_iff_eq.mp h
    have h0 : (a.branch_id == "0") = false := by
      rw [beq_eq_false_iff_ne, ha]
      exact hb
    simp [h, h0]
  · simp [h]

/-- C4 (amended): the per-chat main_branch and branch_id mapping are produced
by the get_branched_messages route, not by the branch analyzer (whose per-chat
output is messages, parent_children and edit_branches).  For every input
message list, each chat entry of the route's output has main_branch equal to
the chat's messages with branch_id "0" (in input order), and every branches
entry is keyed by a non-"0" branch_id with branch_messages equal to the chat's
messages carrying exactly that branch_id (in input order). -/
theorem get_branched_messages_structure (msgs : List Msg) (c : String)
    (bc : BranchedChat) (hmem : (c, bc) ∈ getBranchedMessages msgs) :
    bc.main_branch
      = (msgs.filter (fun m => m.chat_name == c)).filter (fun m => m.branch_id == "0")
    ∧ ∀ be ∈ bc.branches, be.1 ≠ "0"
        ∧ be.2.branch_messages
          = (msgs.filter (fun m => m.chat_name == c)).filter
              (fun x => x.branch_id == be.1) := by
  unfold getBranchedMessages at hmem
  rcases List.mem_filterMap.mp hmem with ⟨ce, hce, heq⟩
  simp only [] at heq
  split at heq
  case isFalse => cases heq
  case isTrue hcond =>
    have hpair := Option.some.inj heq
    have hc : ce.1 = c := congrArg Prod.fst hpair
    have hbc : bc = ⟨ce.2.filter (fun m => m.branch_id == "0"),
        (ce.2.filter (fun m => !(m.branch_id == "0"))).foldl (branchesAdd ce.2) []⟩ :=
      (congrArg Prod.snd hpair).symm
    have hgrp := groupFold_chats msgs [] []
      (by intro e he; cases he) (by intro x hx; cases hx) ce hce
    have hce2 : ce.2 = msgs.filter (fun x => x.chat_name == ce.1) := by
      simpa using hgrp
    constructor
    · rw [hbc]
      simp only []
      rw [hce2, hc]
    · intro be hbe
      rw [hbc] at hbe
      simp only [] at hbe
      have hbr := groupFold_branches ce.2 (ce.2.filter (fun m => !(m.branch_id == "0")))
        [] [] (by intro e he; cases he) (by intro x hx; cases hx)
        (by intro e he; cases he)
        (by
          intro x hx
          have := (List.mem_filter.mp hx).2
          simpa using this)
        be hbe
      refine ⟨hbr.2, ?_⟩
      have h1 := hbr.1
      simp only [List.nil_append] at h1
      rw [h1, filter_branch_ne0 hbr.2, hce2, hc]

def c4wmsg0 : Msg :=
  { chat_name := "A", chat_id := "", branch_id := "0", message_id := "p0"
    parent_message_id := none, parent_message := none
    sender := "human", text := "main", ts := 0 }

def c4wmsg1 : Msg :=
  { chat_name := "A", chat_id := "", branch_id := "1", message_id := "q1"
    parent_message_id := none, parent_message := some "p0"
    sender := "human", text := "branched", ts := 5 }

def c4wmsgs : List Msg := [c4wmsg0, c4wmsg1]

def c4wdata : BranchedChat :=
  ((getBranchedMessages c4wmsgs).map Prod.snd).headD ⟨[], []⟩

/-- Witness for the amended C4: a chat with one main-line and one branched
message yields main_branch with the "0" message and a branch keyed "1" holding
the other. -/
theorem get_branched_messages_structure_witness :
    ("A", c4wdata) ∈ getBranchedMessages c4wmsgs
    ∧ (c4wdata.main_branch
        = (c4wmsgs.filter (fun m => m.chat_name == "A")).filter
            (fun m => m.branch_id == "0")
      ∧ ∀ be ∈ c4wdata.branches, be.1 ≠ "0"
          ∧ be.2.branch_messages
            = (c4wmsgs.filter (fun m => m.chat_name == "A")).filter
                (fun x => x.branch_id == be.1)) :=
  ⟨by decide, get_branched_messages_structure c4wmsgs "A" c4wdata (by decide)⟩

/-!
Task status lookup (C3).

The route check_task_status (dialogos-api routes/api.py lines 184-202) calls
background_processor.get_task_status(task_id) and, if a record comes back,
returns its status/progress/error/completed fields; a falsy record gives a 404
and any exception gives a 500 error body.  However the BackgroundProcessor
class of background_processor.py (lines 15-119) defines only task_queue,
start_task, process_queue and load_json: it keeps no per-task status records,
and Python attribute lookup of get_task_status on a BackgroundProcessor
instance raises AttributeError, which the route's except clause converts into
the 500 error response, for every task id, including ids freshly returned by
start_task while the task is in flight.
-/

/-- A queued task: the id returned by start_task and the optional upload path
(None selects in-memory processing). -/
structure QueueTask where
  task_id : String
  file_path : Option String
  deriving DecidableEq, Repr

/-- Models BackgroundProcessor.start_task: the task id is the formatted
current time, and the task joins the FIFO queue. -/
def startTask (queue : List QueueTask) (now : String) (filePath : Option String) :
    String × List QueueTask :=
  (now, queue ++ [⟨now, filePath⟩])

/-- The status record shape the route tries to read
(status/progress/error/completed attributes). -/
structure StatusRecord where
  status : String
  progress : Int
  error : Option String
  completed : Bool
  deriving DecidableEq, Repr

/-- The two response shapes of the route: a status JSON body with HTTP code,
or an error JSON body with HTTP code. -/
inductive StatusResponse
  | record (status : String) (progress : Int) (error : Option String)
      (completed : Bool) (httpCode : Nat)
  | errorResponse (msg : String) (httpCode : Nat)
  deriving DecidableEq, Repr

/-- The message of the AttributeError raised by looking up the undefined
method on a BackgroundProcessor instance. -/
def attrErrMsg : String :=
  "AttributeError: BackgroundProcessor object has no attribute get_task_status"

/-- Models the attribute access background_processor.get_task_status(task_id):
the class defines no such method and no status storage, so the lookup raises
AttributeError for every task id. -/
def getTaskStatus (taskId : String) : Except String (Option StatusRecord) :=
  Except.error attrErrMsg

/-- Models the check_task_status route: return the record fields with 200 when
a truthy record comes back, 404 when the lookup returns a falsy value, and the
500 error body when an exception is raised. -/
def checkTaskStatus (taskId : String) : StatusResponse :=
  match getTaskStatus taskId with
  | Except.ok (some s) => StatusResponse.record s.status s.progress s.error s.completed 200
  | Except.ok none => StatusResponse.errorResponse "Task not found" 404
  | Except.error e => StatusResponse.errorResponse e 500

/-- C3 is violated by the code: for every enqueued task, looking up the task
id returned by start_task yields the 500 AttributeError response, never a
status record, because BackgroundProcessor defines no get_task_status method
and keeps no status state.  The route source itself expects the record
interface, so the missing method is a defect of the processor class. -/
theorem task_status_lookup_always_errors (queue : List QueueTask) (now : String)
    (filePath : Option String) :
    checkTaskStatus (startTask queue now filePath).1
      = StatusResponse.errorResponse attrErrMsg 500 := rfl

/-!
Pipeline stage embeddings.

process_chatgpt_messages (data_processing.py lines 45-102) flattens ChatGPT
export conversations into message records and returns df.to_dict("records"),
a plain Python list of dicts; get_embeddings (embedding.py lines 6-53)
batches texts by 100, filters falsy entries per batch, and returns None when
any provider call (or the api-key check) raises; process_queue
(background_processor.py lines 36-111) runs one task per loop iteration.
Because df is the records list and not a DataFrame, the expression
df["text"].tolist() at background_processor.py line 59 indexes a list with a
string and raises TypeError on every task that has data; the per-task except
clause catches it, so the embedding, clustering, topic and persistence steps
(lines 59-106) are dead code and no artifact file is ever written.  TSNE,
DBSCAN and the two OpenAI providers of those dead calls are oracle
parameters; vector and point types are type parameters since no claim depends
on their numeric content.
-/

/-- The content value of a ChatGPT export node message: either a dict with a
parts list (joined with spaces) or any other value (stringified). -/
inductive MsgContent
  | parts (l : List String)
  | other (s : String)
  deriving DecidableEq, Repr

/-- Models the message dict inside an export mapping node.  A create_time of
none covers the missing, unparseable and NaT cases, all of which skip the
message. -/
structure NodeMsg where
  id : Option String
  create_time : Option Int
  content : MsgContent
  role : Option String
  deriving DecidableEq, Repr

/-- One mapping node of a ChatGPT export conversation. -/
structure ConvNode where
  message : Option NodeMsg
  parent : Option String
  deriving DecidableEq, Repr

/-- One ChatGPT export conversation. -/
structure Conv where
  title : Option String
  id : Option String
  mapping : List (String × ConvNode)
  deriving DecidableEq, Repr

/-- Text extraction of process_chatgpt_messages: join the parts with spaces,
else stringify the content. -/
def contentText : MsgContent → String
  | MsgContent.parts l => String.intercalate " " l
  | MsgContent.other s => s

/-- Models process_chatgpt_messages: flatten the mapping nodes (skipping
nodes without a message or with an unusable timestamp), then sort the whole
list by timestamp; an empty result short-circuits to the empty list. -/
def processChatgptMessages (data : List Conv) : List Msg :=
  let messages := data.flatMap (fun conv =>
    conv.mapping.filterMap (fun ne =>
      match ne.2.message with
      | none => none
      | some msg =>
        match msg.create_time with
        | none => none
        | some ts =>
          some { chat_name := conv.title.getD "Untitled Chat",
                 chat_id := conv.id.getD "",
                 branch_id := "0",
                 message_id := msg.id.getD "",
                 parent_message_id := ne.2.parent,
                 parent_message := none,
                 sender := if msg.role == some "user" then "human" else "assistant",
                 text := contentText msg.content,
                 ts := ts }))
  if messages = [] then [] else sortByTs messages

/-- The batching loop range(0, len(texts), 100) as successive slices; the
fuel equals the text count, which dominates the number of slices. -/
def chunksGo (fuel : Nat) (l : List String) : List (List String) :=
  match fuel, l with
  | _, [] => []
  | 0, _ => []
  | f + 1, x :: xs => (x :: xs).take 100 :: chunksGo f ((x :: xs).drop 100)

/-- The batch slices of get_embeddings (batch_size = 100). -/
def chunks100 (l : List String) : List (List String) :=
  chunksGo l.length l

/-- The batch loop of get_embeddings: filter falsy texts per batch, skip
batches left empty, abort the whole call (the enclosing try/except returns
None) when the provider raises on any batch, else concatenate. -/
def getEmbeddingsGo {V : Type} (provider : List String → Except String (List V)) :
    List (List String) → Option (List V)
  | [] => some []
  | b :: bs =>
    let fb := b.filter (fun t => !(t == ""))
    if fb.isEmpty then getEmbeddingsGo provider bs
    else
      match provider fb with
      | Except.error _ => none
      | Except.ok es =>
        match getEmbeddingsGo provider bs with
        | none => none
        | some rest => some (es ++ rest)

/-- Models get_embeddings: an empty input returns [] before the try block;
otherwise the batch loop runs and any raised provider error (including the
missing-api-key ValueError, folded into the provider oracle) yields None. -/
def getEmbeddings {V : Type} (provider : List String → Except String (List V))
    (texts : List String) : Option (List V) :=
  if texts.isEmpty then some [] else getEmbeddingsGo provider (chunks100 texts)

/-- The shapes of the artifact files named by the worker's persistence code
(background_processor.py lines 93-106); the write list of every task run
stays empty because no task reaches those lines. -/
inductive FileContent (P : Type)
  | points (l : List P)
  | clusters (l : List Int)
  | topics (l : List (Int × String))
  | titles (l : List String)
  | reflections
  | snapshot
  deriving DecidableEq, Repr

structure FileWrite (P : Type) where
  path : String
  content : FileContent P
  deriving DecidableEq, Repr

/-- How one task ends: the catch-all except logs any raised error and the
worker continues; the no-data continue skips empty data; the
embeddings-failed continue (lines 61-63) and the completed state are kept
from the source although no execution reaches them. -/
inductive TaskOutcome
  | completed
  | noData
  | embeddingsFailed
  | raised (msg : String)
  deriving DecidableEq, Repr

/-- Observable result of one process_queue iteration: the artifact writes it
performed, in order, and how the task ended. -/
structure TaskRun (P : Type) where
  writes : List (FileWrite P)
  outcome : TaskOutcome
  deriving DecidableEq, Repr

/-- The message of the TypeError raised by df["text"] when df is the records
list returned by process_chatgpt_messages. -/
def pyTypeErrMsg : String :=
  "TypeError: list indices must be integers or slices, not str"

/-- Models the body of one process_queue iteration on the chatgpt path (the
claude path is symmetric; detect_chat_type and process_claude_messages are
imported by the source but absent from the repository).  The data argument is
the loaded JSON (file task) or the in-memory snapshot.  An empty data list is
skipped (continue, line 52).  Otherwise the source binds df to the records
list returned by process_chatgpt_messages (data_processing.py line 102) and
then evaluates df["text"].tolist() (background_processor.py line 59), which
indexes a Python list with a string and raises TypeError; the per-task except
clause catches it, so the task fails with no artifact write.  The oracle
parameters stand for the embedding, TSNE, clustering and topic providers of
the never-reached lines 59-106. -/
def processTask {V P : Type}
    (provider : List String → Except String (List V))
    (tsne : List V → List P)
    (dbscan : List V → Nat → Except String (List Int))
    (topicFn : List String → String)
    (data : List Conv) : TaskRun P :=
  if data.isEmpty then ⟨[], TaskOutcome.noData⟩
  else
    let _df := processChatgptMessages data
    ⟨[], TaskOutcome.raised pyTypeErrMsg⟩

/-- First export node: a user message at time 0. -/
def c2node1 : ConvNode :=
  ⟨some ⟨some "m1", some 0, MsgContent.other "hello", some "user"⟩, none⟩

/-- Second export node: an assistant message at time 5, child of the first. -/
def c2node2 : ConvNode :=
  ⟨some ⟨some "m2", some 5, MsgContent.other "world", some "assistant"⟩, some "m1"⟩

/-- A ChatGPT export conversation titled "A" with two well-formed messages. -/
def c2conv : Conv :=
  ⟨some "A", some "c1", [("n1", c2node1), ("n2", c2node2)]⟩

/-- A per-batch embedding provider that succeeds with one vector per text. -/
def c2provider : List String → Except String (List Int) :=
  fun b => Except.ok (b.map (fun _ => 0))

/-- A reduction oracle returning one 2-D point per embedding. -/
def c2tsne : List Int → List (Int × Int) :=
  fun l => l.map (fun _ => (0, 0))

/-- A clustering oracle putting every point in cluster 0. -/
def c2dbscan : List Int → Nat → Except String (List Int) :=
  fun l _ => Except.ok (l.map (fun _ => 0))

/-- A topic provider with a fixed label. -/
def c2topic : List String → String := fun _ => "T"

/-- C2 is violated by the code: there is no successfully completed pipeline
run whose persisted points, clusters and titles could be compared, because no
task ever completes and no artifact file is ever written.  Every task either
carries no data (skipped) or raises TypeError at the df["text"] step, since
process_chatgpt_messages returns a list of record dicts and process_queue
indexes it like a DataFrame; the per-task except clause catches the error and
the worker moves on having written nothing.  At the concrete failing input
(one export conversation with two mapped messages) the task ends in the
raised-TypeError state. -/
theorem pipeline_task_never_completes {V P : Type}
    (provider : List String → Except String (List V))
    (tsne : List V → List P)
    (dbscan : List V → Nat → Except String (List Int))
    (topicFn : List String → String)
    (data : List Conv) :
    (processTask provider tsne dbscan topicFn data).writes = []
    ∧ (processTask provider tsne dbscan topicFn data).outcome ≠ TaskOutcome.completed
    ∧ (processTask c2provider c2tsne c2dbscan c2topic [c2conv]).outcome
        = TaskOutcome.raised pyTypeErrMsg := by
  refine ⟨?_, ?_, by decide⟩
  · unfold processTask
    by_cases hdata : data.isEmpty
    · rw [if_pos hdata]
    · rw [if_neg hdata]
  · unfold processTask
    by_cases hdata : data.isEmpty
    · rw [if_pos hdata]
      simp
    · rw [if_neg hdata]
      simp

theorem getEmbeddingsGo_batch_error {V : Type}
    (provider : List String → Except String (List V)) :
    ∀ bs : List (List String),
      (∃ b ∈ bs, (b.filter (fun t => !(t == ""))) ≠ []
        ∧ ∃ e, provider (b.filter (fun t => !(t == ""))) = Except.error e) →
      getEmbeddingsGo provider bs = none := by
  intro bs
  induction bs with
  | nil => rintro ⟨b, hb, _⟩; cases hb
  | cons b bs ih =>
    rintro ⟨b0, hb0, hfb0, e, he0⟩
    unfold getEmbeddingsGo
    dsimp only []
    by_cases hfb : (b.filter (fun t => !(t == ""))).isEmpty
    · rw [if_pos hfb]
      apply ih
      rcases List.mem_cons.mp hb0 with rfl | hb0
      · exact absurd (List.isEmpty_iff.mp hfb) hfb0
      · exact ⟨b0, hb0, hfb0, e, he0⟩
    · rw [if_neg hfb]
      cases hp : provider (b.filter (fun t => !(t == ""))) with
      | error e2 => rfl
      | ok es =>
        rcases List.mem_cons.mp hb0 with rfl | hb0
        · rw [he0] at hp; cases hp
        · rw [ih ⟨b0, hb0, hfb0, e, he0⟩]

/-- A per-batch embedding provider that always raises. -/
def c8provider : List String → Except String (List Int) :=
  fun _ => Except.error "RateLimitError"

/-- C8 is violated by the code: the embedding-failure abort path of the
worker is dead code.  The get_embeddings half of the claim does hold of
embedding.py: one failing provider batch (nonempty after filtering) makes the
whole call return None, discarding any partially collected batches, with no
retry.  But process_queue never reaches the embedding stage: every task with
data raises TypeError at the df["text"] step first, so no task run ever ends
in the embeddings-failed state that lines 61-63 would produce, and no
artifact is ever written at all (in particular none from a partial embedding
set). -/
theorem embedding_stage_unreachable {V P : Type}
    (provider : List String → Except String (List V))
    (tsne : List V → List P)
    (dbscan : List V → Nat → Except String (List Int))
    (topicFn : List String → String) :
    (∀ texts : List String,
        (∃ b ∈ chunks100 texts, (b.filter (fun t => !(t == ""))) ≠ []
          ∧ ∃ e, provider (b.filter (fun t => !(t == ""))) = Except.error e) →
        getEmbeddings provider texts = none)
    ∧ (∀ data : List Conv,
        (processTask provider tsne dbscan topicFn data).writes = [])
    ∧ (∀ data : List Conv,
        (processTask provider tsne dbscan topicFn data).outcome
          ≠ TaskOutcome.embeddingsFailed) := by
  refine ⟨?_, ?_, ?_⟩
  · intro texts hbatch
    unfold getEmbeddings
    by_cases htexts : texts.isEmpty
    · rcases hbatch with ⟨b, hb, _⟩
      rw [show chunks100 texts = [] from by
        rw [List.isEmpty_iff.mp htexts]; rfl] at hb
      cases hb
    · rw [if_neg htexts]
      exact getEmbeddingsGo_batch_error provider _ hbatch
  · intro data
    unfold processTask
    by_cases hdata : data.isEmpty
    · rw [if_pos hdata]
    · rw [if_neg hdata]
  · intro data
    unfold processTask
    by_cases hdata : data.isEmpty
    · rw [if_pos hdata]
      simp
    · rw [if_neg hdata]
      simp

/-- Witness for C8: the always-failing provider makes get_embeddings return
none on a concrete nonempty text list (its single batch fails), and the
concrete worker run writes nothing and does not end in the embeddings-failed
state (it raised TypeError before the embedding stage). -/
theorem embedding_stage_unreachable_witness :
    getEmbeddings c8provider ["hello", "world"] = (none : Option (List Int))
    ∧ (processTask c8provider c2tsne c2dbscan c2topic [c2conv]).writes = []
    ∧ (processTask c8provider c2tsne c2dbscan c2topic [c2conv]).outcome
        ≠ TaskOutcome.embeddingsFailed :=
  ⟨(embedding_stage_unreachable c8provider c2tsne c2dbscan c2topic).1
      ["hello", "world"]
      ⟨["hello", "world"], by decide, by decide, "RateLimitError", rfl⟩,
   (embedding_stage_unreachable c8provider c2tsne c2dbscan c2topic).2.1 [c2conv],
   (embedding_stage_unreachable c8provider c2tsne c2dbscan c2topic).2.2 [c2conv]⟩

/-!
Task queue and worker ordering (C9).

queue.Queue is FIFO and process_queue is the single consumer: the worker loop
pops one task and runs its whole body (all artifact writes, or the skip/error
paths) before popping the next.  The observable behaviour of a queue drained
in enqueue order is therefore the concatenation of the per-task event blocks,
one block per task in queue order; events are tagged with the position of
their task in the enqueue order.
-/

/-- One observable worker event, tagged with the task id it belongs to. -/
inductive WorkerEv (P : Type)
  | started (taskId : String)
  | wrote (taskId : String) (w : FileWrite P)
  | finished (taskId : String) (outcome : TaskOutcome)
  deriving DecidableEq, Repr

/-- The event block of one process_queue iteration: the start log, the
artifact writes in order, and the completion (or skip/failure) of the task. -/
def taskEvents {V P : Type}
    (provider : List String → Except String (List V))
    (tsne : List V → List P)
    (dbscan : List V → Nat → Except String (List Int))
    (topicFn : List String → String)
    (dataOf : QueueTask → List Conv) (t : QueueTask) : List (WorkerEv P) :=
  let run := processTask provider tsne dbscan topicFn (dataOf t)
  WorkerEv.started t.task_id
    :: run.writes.map (fun w => WorkerEv.wrote t.task_id w)
    ++ [WorkerEv.finished t.task_id run.outcome]

/-- Concatenation of per-task event blocks, each event tagged with its task's
position in the queue order. -/
def taggedTrace {α β : Type} (f : α → List β) : Nat → List α → List (Nat × β)
  | _, [] => []
  | k, t :: ts => (f t).map (fun e => (k, e)) ++ taggedTrace f (k + 1) ts

/-- The trace of the single worker thread draining the FIFO queue: the tasks
run one at a time, in enqueue order, each to completion. -/
def workerTrace {V P : Type}
    (provider : List String → Except String (List V))
    (tsne : List V → List P)
    (dbscan : List V → Nat → Except String (List Int))
    (topicFn : List String → String)
    (dataOf : QueueTask → List Conv) (tasks : List QueueTask) :
    List (Nat × WorkerEv P) :=
  taggedTrace (taskEvents provider tsne dbscan topicFn dataOf) 0 tasks

theorem taggedTrace_cons_length {α β : Type} (f : α → List β) (t : α) (ts : List α)
    (k : Nat) :
    (taggedTrace f k (t :: ts)).length
      = (f t).length + (taggedTrace f (k + 1) ts).length := by
  show ((f t).map (fun e => (k, e)) ++ taggedTrace f (k + 1) ts).length = _
  simp

theorem taggedTrace_cons_tag {α β : Type} (f : α → List β) (t : α) (ts : List α)
    (k p : Nat) (hp : p < (taggedTrace f k (t :: ts)).length) :
    ((taggedTrace f k (t :: ts)).get ⟨p, hp⟩).1
      = if h : p < (f t).length then k
        else ((taggedTrace f (k + 1) ts).get ⟨p - (f t).length, by
          have := taggedTrace_cons_length f t ts k
          omega⟩).1 := by
  have hp' : p < ((f t).map (fun e => (k, e)) ++ taggedTrace f (k + 1) ts).length := hp
  by_cases h : p < (f t).length
  · rw [dif_pos h]
    show (((f t).map (fun e => (k, e)) ++ taggedTrace f (k + 1) ts).get ⟨p, hp'⟩).1 = k
    rw [List.get_eq_getElem, List.getElem_append_left (by simpa using h),
      List.getElem_map]
  · rw [dif_neg h]
    show (((f t).map (fun e => (k, e)) ++ taggedTrace f (k + 1) ts).get ⟨p, hp'⟩).1 = _
    rw [List.get_eq_getElem,
      List.getElem_append_right (by simpa using Nat.le_of_not_lt h)]
    simp only [List.length_map]
    rw [List.get_eq_getElem]

theorem taggedTrace_tag_ge {α β : Type} (f : α → List β) :
    ∀ (ts : List α) (k p : Nat) (hp : p < (taggedTrace f k ts).length),
      k ≤ ((taggedTrace f k ts).get ⟨p, hp⟩).1 := by
  intro ts
  induction ts with
  | nil =>
    intro k p hp
    simp [taggedTrace] at hp
  | cons t ts ih =>
    intro k p hp
    rw [taggedTrace_cons_tag f t ts k p hp]
    by_cases h : p < (f t).length
    · rw [dif_pos h]
    · rw [dif_neg h]
      exact Nat.le_trans (Nat.le_succ k) (ih (k + 1) _ _)

theorem taggedTrace_tag_mono {α β : Type} (f : α → List β) :
    ∀ (ts : List α) (k p q : Nat)
      (hp : p < (taggedTrace f k ts).length) (hq : q < (taggedTrace f k ts).length),
      p ≤ q →
      ((taggedTrace f k ts).get ⟨p, hp⟩).1 ≤ ((taggedTrace f k ts).get ⟨q, hq⟩).1 := by
  intro ts
  induction ts with
  | nil =>
    intro k p q hp
    simp [taggedTrace] at hp
  | cons t ts ih =>
    intro k p q hp hq hpq
    rw [taggedTrace_cons_tag f t ts k p hp, taggedTrace_cons_tag f t ts k q hq]
    by_cases hq1 : q < (f t).length
    · rw [dif_pos hq1, dif_pos (Nat.lt_of_le_of_lt hpq hq1)]
    · rw [dif_neg hq1]
      by_cases hp1 : p < (f t).length
      · rw [dif_pos hp1]
        exact Nat.le_trans (Nat.le_succ k) (taggedTrace_tag_ge f ts (k + 1) _ _)
      · rw [dif_neg hp1]
        exact ih (k + 1) _ _ _ _ (by omega)

/-- C9: the single worker runs tasks strictly in enqueue order, one at a
time: in the worker trace, every event of the task at queue position i
(its start, every one of its artifact writes and its completion or failure)
occurs before every event of the task at a later queue position j, so the
earlier task's pipeline finishes (all writes done, or the task skipped or
failed) before the later one begins. -/
theorem worker_executes_in_enqueue_order {V P : Type}
    (provider : List String → Except String (List V))
    (tsne : List V → List P)
    (dbscan : List V → Nat → Except String (List Int))
    (topicFn : List String → String)
    (dataOf : QueueTask → List Conv) (tasks : List QueueTask)
    (i j p q : Nat)
    (hp : p < (workerTrace provider tsne dbscan topicFn dataOf tasks).length)
    (hq : q < (workerTrace provider tsne dbscan topicFn dataOf tasks).length)
    (hpi : ((workerTrace provider tsne dbscan topicFn dataOf tasks).get ⟨p, hp⟩).1 = i)
    (hqj : ((workerTrace provider tsne dbscan topicFn dataOf tasks).get ⟨q, hq⟩).1 = j)
    (hij : i < j) :
    p < q := by
  unfold workerTrace at hp hq hpi hqj
  by_contra hcon
  have hqp : q ≤ p := Nat.le_of_not_lt hcon
  have hmono := taggedTrace_tag_mono (taskEvents provider tsne dbscan topicFn dataOf)
    tasks 0 q p hq hp hqp
  rw [hpi, hqj] at hmono
  omega

/-- Two queued tasks: the first carries the c2conv data, the second none. -/
def c9tasks : List QueueTask := [⟨"1", none⟩, ⟨"2", none⟩]

/-- Data resolution for the two tasks. -/
def c9dataOf : QueueTask → List Conv :=
  fun t => if t.task_id == "1" then [c2conv] else []

/-- The concrete worker trace of the two tasks. -/
def c9trace : List (Nat × WorkerEv (Int × Int)) :=
  workerTrace c2provider c2tsne c2dbscan c2topic c9dataOf c9tasks

/-- Witness for C9: in the concrete two-task trace, position 0 belongs to the
first task and position 2 (right after the first task's start and its failed
completion) belongs to the second, and the theorem places 0 before 2. -/
theorem worker_executes_in_enqueue_order_witness :
    (c9trace.get ⟨0, by decide⟩).1 = 0
    ∧ (c9trace.get ⟨2, by decide⟩).1 = 1
    ∧ (0 : Nat) < 2 :=
  ⟨by decide, by decide,
   worker_executes_in_enqueue_order c2provider c2tsne c2dbscan c2topic c9dataOf
     c9tasks 0 1 0 2 (by decide) (by decide) (by decide) (by decide) (by decide)⟩
